import Mathlib

/-!
Shallow embedding of the image-analyzer analysis pipeline.

The embedding covers:
- the analyze route handler (per-file loop, HEIC handling, description
  derivation, brand/model split, pricing lookup, condition lookup);
- the client-side batch orchestration (fixed-size batching, sequential
  dispatch, aggregation, progress, halt on first failing batch);
- the CSV export and a CSV parser used to state the round-trip property;
- the visual-match normalizer's per-image deduplication, modelled from the
  spec (its implementation is not present in the sources, only its test).

JS strings are modelled as Lean String; absent (undefined/null) values as
Option; a JS value used in boolean position follows JS truthiness for
strings (empty string is falsy). External services are modelled as
environment functions returning their responses.
-/

/-- JS truthiness of a possibly-absent string: undefined/null and the empty
string are falsy, every other string is truthy. -/
def truthyS : Option String → Bool
  | none => false
  | some s => !(s == "")

/-- JS expression a || b for a possibly-absent string a and default b. -/
def jsOrStr (a : Option String) (b : String) : String :=
  match a with
  | some s => if s == "" then b else s
  | none => b

/-- JS s.charAt(0).toUpperCase() + s.slice(1). -/
def capitalize (s : String) : String :=
  match s.data with
  | [] => ""
  | c :: cs => String.mk (Char.toUpper c :: cs)

/-- Character-level worker for JS String.prototype.split(' '): splits on each
single space, keeping empty pieces. -/
def splitChars : List Char → List Char → List String
  | [], cur => [String.mk cur]
  | c :: rest, cur =>
    if c = ' ' then String.mk cur :: splitChars rest []
    else splitChars rest (cur ++ [c])

/-- JS description.split(' '). -/
def splitSp (s : String) : List String := splitChars s.data []

/-- JS Array.prototype.join(' '). -/
def joinSp : List String → String
  | [] => ""
  | [s] => s
  | s :: s' :: rest => s ++ " " ++ joinSp (s' :: rest)

/-- JS String.prototype.toLowerCase (ASCII, as used on titles/filenames). -/
def lowerStr (s : String) : String := String.mk (s.data.map Char.toLower)

/-- One entry of webDetection.bestGuessLabels. -/
structure BestGuessLabel where
  label : Option String
deriving DecidableEq

/-- One entry of webDetection.webEntities. -/
structure WebEntity where
  description : Option String
  score : Option ℚ
deriving DecidableEq

/-- One entry of webDetection.visuallySimilarImages. -/
structure SimilarImage where
  url : Option String
deriving DecidableEq

/-- The webDetection part of a Vision API response; an absent array and an
empty array behave identically at every use site, so arrays are plain lists. -/
structure WebDetection where
  bestGuessLabels : List BestGuessLabel
  webEntities : List WebEntity
  visuallySimilarImages : List SimilarImage
deriving DecidableEq

/-- The chain webDetection?.bestGuessLabels?.[0]?.label. -/
def bglOf (wd : Option WebDetection) : Option String :=
  (wd.bind fun w => w.bestGuessLabels.head?).bind BestGuessLabel.label

/-- The chain webDetection?.webEntities (absent collapses to the empty list,
matching every use via ?. and .length truthiness). -/
def entitiesOf (wd : Option WebDetection) : List WebEntity :=
  (wd.map WebDetection.webEntities).getD []

/-- Lines 118-123 of route.ts: best-guess label, else first web entity's
description, else the literal "Unknown Item" (via || on JS strings). -/
def descriptionOf (wd : Option WebDetection) : String :=
  let bgl := bglOf wd
  let bgl2 :=
    if !truthyS bgl && !(entitiesOf wd).isEmpty then
      (entitiesOf wd).head?.bind WebEntity.description
    else bgl
  jsOrStr bgl2 "Unknown Item"

/-- Lines 133-140 of route.ts, brand part: first token of split(' '),
first character upper-cased; "N/A" only on an (impossible) empty split. -/
def brandOf (d : String) : String :=
  match splitSp d with
  | [] => "N/A"
  | p :: _ => capitalize p

/-- Lines 133-140 of route.ts, model part: the description itself unless the
split has more than one token, in which case the tokens after the first,
joined by single spaces. -/
def modelOf (d : String) : String :=
  match splitSp d with
  | [] => d
  | [_] => d
  | _ :: p :: rest => joinSp (p :: rest)

/-- The price_results field of a shopping listing. -/
structure PriceResults where
  typical_price_range : Option (List String)
deriving DecidableEq

/-- One shopping_results listing, with the fields route.ts reads. -/
structure Listing where
  price_results : Option PriceResults
  price : Option String
  link : Option String
deriving DecidableEq

/-- The value resolved by getPricingFromSerpApi. The price is an Option
because JS tpr[0] on a present-but-empty typical_price_range array is
undefined. -/
structure PriceLink where
  price : Option String
  link : String
deriving DecidableEq

/-- Lines 38-44 of route.ts: from the first listing, a present
typical_price_range field wins (its first element), otherwise the listing's
single price, otherwise "N/A". -/
def resolvePrice (fr : Listing) : Option String :=
  match fr.price_results with
  | some pr =>
    match pr.typical_price_range with
    | some l => l.head?
    | none => some (jsOrStr fr.price "N/A")
  | none => some (jsOrStr fr.price "N/A")

/-- Lines 22-50 of route.ts. The backend response is passed in: none models
a null/absent json or a missing shopping_results field; the function is
total, so it never raises. -/
def getPricingFromSerpApi (query : String) (resp : Option (List Listing)) :
    PriceLink :=
  if query == "" || query == "N/A" then ⟨some "N/A", "#"⟩
  else
    match resp with
    | none => ⟨some "N/A", "#"⟩
    | some [] => ⟨some "N/A", "#"⟩
    | some (fr :: _) => ⟨resolvePrice fr, jsOrStr fr.link "#"⟩

/-- Lines 6-19 of route.ts: the condition backend's response is used
verbatim; any failure is absorbed into the literal "AI Analysis Failed". -/
def getConditionFromAI : Except String String → String
  | .ok t => t
  | .error _ => "AI Analysis Failed"

/-- Round-half-up on a rational, computed on numerator and denominator so
the kernel can evaluate it: floor of q + 1/2. -/
def roundQ (q : ℚ) : Int :=
  Int.fdiv (2 * q.num + q.den) (2 * q.den)

/-- JS Number.prototype.toFixed(2) on a rational score. -/
def toFixed2 (q : ℚ) : String :=
  let n : Int := roundQ (q * 100)
  let s := n.natAbs
  (if n < 0 then "-" else "") ++ toString (s / 100) ++ "." ++
    (if s % 100 < 10 then "0" else "") ++ toString (s % 100)

/-- An uploaded file; external per-file behaviour is keyed by its name. -/
structure FileInput where
  name : String
deriving DecidableEq

/-- Responses of the external collaborators of the route handler. vision
models analyzeImageWithVisionRest (throws on a non-ok response, otherwise
yields data.responses[0].webDetection); convertHeic models heicConvert;
condition the generative backend; serp the shopping search by query. -/
structure Env where
  convertHeic : String → Except String Unit
  vision : String → Except String (Option WebDetection)
  condition : String → Except String String
  serp : String → Option (List Listing)

/-- Line 100 of route.ts: file.name.toLowerCase() ends with .heic or .heif. -/
def isHeicName (n : String) : Bool :=
  let l := n.data.map Char.toLower
  List.isSuffixOf ".heic".data l || List.isSuffixOf ".heif".data l

/-- One row of the route's results array. -/
structure Row where
  fileName : String
  brand : String
  model : String
  description : String
  condition : String
  currentRetailPrice : Option String
  webLink : String
  correspondingItemPictures : String
  confidence : String
deriving DecidableEq

/-- Line 106 of route.ts: the row pushed when a HEIC conversion fails. -/
def conversionErrorRow (name msg : String) : Row :=
  ⟨name, "CONVERSION_ERROR", "N/A", msg, "N/A", some "N/A", "N/A", "N/A",
   "0.00"⟩

/-- Lines 111-152 of route.ts: the non-conversion-error path for one file.
A vision failure escapes to the route's catch (an error here). -/
def normalRow (env : Env) (f : FileInput) : Except String Row :=
  match env.vision f.name with
  | .error e => .error e
  | .ok wd =>
    let description := descriptionOf wd
    let condition := getConditionFromAI (env.condition f.name)
    let priceData := getPricingFromSerpApi description (env.serp description)
    .ok ⟨f.name, brandOf description, modelOf description, description,
         condition, priceData.price, priceData.link,
         jsOrStr ((wd.bind fun w => w.visuallySimilarImages.head?).bind
           SimilarImage.url) "N/A",
         jsOrStr (((entitiesOf wd).head?.bind WebEntity.score).map toFixed2)
           "0.00"⟩

/-- Lines 97-109 of route.ts: per-file step. A failing HEIC conversion
yields the sentinel row and the loop continues (ok here). -/
def processFile (env : Env) (f : FileInput) : Except String Row :=
  if isHeicName f.name then
    match env.convertHeic f.name with
    | .error msg => .ok (conversionErrorRow f.name msg)
    | .ok _ => normalRow env f
  else normalRow env f

/-- Lines 97-153 of route.ts: the loop over files; the first escaping
exception aborts the whole request, discarding earlier rows. -/
def processAll (env : Env) : List FileInput → Except String (List Row)
  | [] => .ok []
  | f :: fs =>
    match processFile env f with
    | .error e => .error e
    | .ok r =>
      match processAll env fs with
      | .error e => .error e
      | .ok rs => .ok (r :: rs)

/-- Lines 84-163 of route.ts: guard for an empty upload, then the loop; ok
is the 200 response with its results, error a non-2xx response. -/
def routePOST (env : Env) (files : List FileInput) :
    Except String (List Row) :=
  if files.isEmpty then .error "No images uploaded."
  else processAll env files

/-- Modelled from the spec: one candidate match of the visual-match-based
recognition variant (spec section 4.2 variant B). The variant's route
implementation is not among the sources; only its jest test is. Fields are
carried verbatim so that retaining a match retains its attributes. -/
structure CandidateMatch where
  title : String
  sourceDomain : Option String
  priceSignal : Option String
  referenceLink : Option String
  thumbnailUrl : Option String
  confidence : String
deriving DecidableEq

/-- Modelled from the spec: the normalizer's per-image deduplication worker
(spec section 4.5): a lowered title already seen is dropped entirely, a new
one keeps the whole match and extends the seen set. -/
def dedupGo (seen : List String) : List CandidateMatch → List CandidateMatch
  | [] => []
  | m :: ms =>
    if lowerStr m.title ∈ seen then dedupGo seen ms
    else m :: dedupGo (lowerStr m.title :: seen) ms

/-- Modelled from the spec: deduplication of one image's matches, starting
from an empty seen set. -/
def dedupMatches (ms : List CandidateMatch) : List CandidateMatch :=
  dedupGo [] ms

/-- Outcome of one client-side analysis run: the aggregated rows the caller
sees, the successive processed-file counts set as progress, the error state,
and how many batches were dispatched. -/
structure RunOutcome (β : Type) where
  results : List β
  trace : List Nat
  error : Option String
  dispatched : Nat
deriving DecidableEq

/-- Lines 48-77 of the Home component: the sequential batch loop. respond
models one round trip of fetch on a batch: ok with the parsed rows, or error
with the message thrown for a non-ok response or a network failure. On
error the loop stops: accumulated rows stay, no later batch is dispatched,
no further progress update happens. -/
def runLoop {α β : Type} (respond : List α → Except String (List β)) :
    List (List α) → List β → Nat → RunOutcome β
  | [], acc, _ => ⟨acc, [], none, 0⟩
  | b :: bs, acc, done =>
    match respond b with
    | .error m => ⟨acc, [], some m, 1⟩
    | .ok rs =>
      let o := runLoop respond bs (acc ++ rs) (done + b.length)
      ⟨o.results, (done + b.length) :: o.trace, o.error, o.dispatched + 1⟩

/-- Line 43 of the Home component. -/
def BATCH_SIZE : Nat := 20

/-- Fuel-driven worker computing the slices filesToProcess.slice(i, i+20)
of the batch loop. -/
def chunksGo {α : Type} : Nat → List α → List (List α)
  | 0, _ => []
  | _, [] => []
  | fuel + 1, l@(_ :: _) =>
    l.take BATCH_SIZE :: chunksGo fuel (l.drop BATCH_SIZE)

/-- The partition of the selected files into successive batches of
BATCH_SIZE. -/
def chunks {α : Type} (l : List α) : List (List α) := chunksGo l.length l

/-- Lines 31-80 of the Home component: empty selection is a usage error
rejected before any dispatch; otherwise the batch loop runs over the
partition, starting with empty results and progress zero. -/
def handleSubmit {α β : Type} (respond : List α → Except String (List β))
    (files : List α) : RunOutcome β :=
  if files.isEmpty then ⟨[], [], some "Please select images to upload.", 0⟩
  else runLoop respond (chunks files) [] 0

/-- The rows a batch contributed: its response payload when ok, nothing
when the batch failed. -/
def okResults {α β : Type} (respond : List α → Except String (List β))
    (b : List α) : List β :=
  match respond b with
  | .ok rs => rs
  | .error _ => []

/-- Successive processed-file counts after each batch of the given list,
starting from done: each entry adds the length of its batch to the
previous entry. -/
def prefixSums {α : Type} (done : Nat) : List (List α) → List Nat
  | [] => []
  | b :: bs => (done + b.length) :: prefixSums (done + b.length) bs

/-- The percent-complete value the Home component derives from a processed
count: (processed / total) * 100. -/
def percentOf (total processed : Nat) : ℚ :=
  ((processed : ℚ) / (total : ℚ)) * 100

/-- One exported row, as the Home component's AnalysisResult interface. -/
structure AnalysisResult where
  fileName : String
  brand : String
  model : String
  description : String
  condition : String
  currentRetailPrice : String
  webLink : String
  correspondingItemPictures : String
  confidence : String
deriving DecidableEq

/-- Lines 89-99 of the Home component: the nine column headers in order. -/
def headerRow : List String :=
  ["File Name", "Brand", "Model", "Description", "Condition",
   "Current Retail Price", "Web Link", "Corresponding Item Pictures",
   "Confidence (Similarity)"]

/-- The nine field values of one result, in the fixed column order. -/
def resultRow (r : AnalysisResult) : List String :=
  [r.fileName, r.brand, r.model, r.description, r.condition,
   r.currentRetailPrice, r.webLink, r.correspondingItemPictures,
   r.confidence]

/-- A CSV value needs quoting when it contains the quote, the delimiter or
a record-delimiter character (the stringifier's minimal-quoting default). -/
def needsQuote (s : String) : Bool :=
  s.data.any fun c => c = '"' || c = ',' || c = '\n' || c = '\r'

/-- Escaping of one character inside a quoted CSV value: quotes double. -/
def escChar (c : Char) : List Char :=
  if c = '"' then ['"', '"'] else [c]

/-- CSV rendering of one field: quoted with doubled inner quotes when
needed, verbatim otherwise. -/
def escField (s : String) : String :=
  if needsQuote s then String.mk ('"' :: s.data.flatMap escChar ++ ['"'])
  else s

/-- Characters of one CSV record: fields joined by the comma delimiter. -/
def renderRowChars : List String → List Char
  | [] => []
  | [f] => (escField f).data
  | f :: f' :: rest => (escField f).data ++ ',' :: renderRowChars (f' :: rest)

/-- Characters of a CSV document: each record followed by a newline. -/
def csvChars (rows : List (List String)) : List Char :=
  rows.flatMap fun r => renderRowChars r ++ ['\n']

/-- CSV serialization of a list of records. -/
def csvStringify (rows : List (List String)) : String :=
  String.mk (csvChars rows)

/-- Lines 84-110 of the Home component: an empty result list is rejected
(alert, no output); otherwise the stringifier runs with the header row and
one record per result. -/
def handleExportCsv (results : List AnalysisResult) : Option String :=
  if results.isEmpty then none
  else some (csvStringify (headerRow :: results.map resultRow))

/-- Parser mode: inside an unquoted region, inside a quoted value, or just
past a quote inside a quoted value (which closes it or doubles). -/
inductive CsvMode where
  | unq
  | inq
  | postq
deriving DecidableEq

/-- One-pass CSV parser: consumes one character per step; cur holds the
current field's characters, row the current record's finished fields. -/
def csvRunM : List Char → CsvMode → List Char → List String →
    List (List String)
  | [], _, cur, row =>
    if row.isEmpty && cur.isEmpty then [] else [row ++ [String.mk cur]]
  | c :: rest, .unq, cur, row =>
    if c = '"' then csvRunM rest .inq cur row
    else if c = ',' then csvRunM rest .unq [] (row ++ [String.mk cur])
    else if c = '\n' then (row ++ [String.mk cur]) :: csvRunM rest .unq [] []
    else csvRunM rest .unq (cur ++ [c]) row
  | c :: rest, .inq, cur, row =>
    if c = '"' then csvRunM rest .postq cur row
    else csvRunM rest .inq (cur ++ [c]) row
  | c :: rest, .postq, cur, row =>
    if c = '"' then csvRunM rest .inq (cur ++ ['"']) row
    else if c = ',' then csvRunM rest .unq [] (row ++ [String.mk cur])
    else if c = '\n' then (row ++ [String.mk cur]) :: csvRunM rest .unq [] []
    else csvRunM rest .unq (cur ++ [c]) row

/-- CSV parsing of a document into records of fields. -/
def csvParse (s : String) : List (List String) :=
  csvRunM s.data .unq [] []

lemma jsOrStr_falsy (a : Option String) (b : String) (h : truthyS a = false) :
    jsOrStr a b = b := by
  cases a with
  | none => rfl
  | some s =>
    simp only [truthyS, Bool.not_eq_false', beq_iff_eq] at h
    simp [jsOrStr, h]

lemma jsOrStr_truthy (s b : String) (h : s ≠ "") :
    jsOrStr (some s) b = s := by
  simp [jsOrStr, h]

lemma splitChars_ne_nil (cs cur : List Char) : splitChars cs cur ≠ [] := by
  induction cs generalizing cur with
  | nil => simp [splitChars]
  | cons c rest ih =>
    by_cases h : c = ' ' <;> simp [splitChars, h, ih]

lemma splitSp_ne_nil (s : String) : splitSp s ≠ [] := splitChars_ne_nil s.data []

/-- C4: the pricing operation is a total function (so it never raises), and
an empty query, the sentinel query "N/A", a failed or json-less backend
response, and an empty shopping_results list all resolve to the sentinel
price "N/A" with link "#". -/
theorem pricingNeverRaises (query : String) (resp : Option (List Listing)) :
    (query = "" → ∀ r, getPricingFromSerpApi query r = ⟨some "N/A", "#"⟩) ∧
    (query = "N/A" → ∀ r, getPricingFromSerpApi query r = ⟨some "N/A", "#"⟩) ∧
    (resp = none → getPricingFromSerpApi query resp = ⟨some "N/A", "#"⟩) ∧
    (resp = some [] → getPricingFromSerpApi query resp = ⟨some "N/A", "#"⟩) := by
  refine ⟨?_, ?_, ?_, ?_⟩
  · rintro rfl r; simp [getPricingFromSerpApi]
  · rintro rfl r; simp [getPricingFromSerpApi]
  · rintro rfl
    by_cases h : (query == "" || query == "N/A") = true <;>
      simp [getPricingFromSerpApi, h]
  · rintro rfl
    by_cases h : (query == "" || query == "N/A") = true <;>
      simp [getPricingFromSerpApi, h]

/-- C4 witness: the sentinel cases at concrete inputs. -/
theorem pricingNeverRaises_witness :
    getPricingFromSerpApi "" (some [⟨none, some "$5", none⟩]) =
      ⟨some "N/A", "#"⟩ ∧
    getPricingFromSerpApi "N/A" (some [⟨none, some "$5", none⟩]) =
      ⟨some "N/A", "#"⟩ ∧
    getPricingFromSerpApi "Hermes Hat" none = ⟨some "N/A", "#"⟩ ∧
    getPricingFromSerpApi "Hermes Hat" (some []) = ⟨some "N/A", "#"⟩ :=
  ⟨(pricingNeverRaises "" (some [⟨none, some "$5", none⟩])).1 rfl _,
   (pricingNeverRaises "N/A" (some [⟨none, some "$5", none⟩])).2.1 rfl _,
   (pricingNeverRaises "Hermes Hat" none).2.2.1 rfl,
   (pricingNeverRaises "Hermes Hat" (some [])).2.2.2 rfl⟩

/-- C7: for the first listing of a non-short-circuited query, a present
typical-price-range field wins over everything else (its first entry is the
resolved price, whatever the single price field holds); when the range field
is absent the single price is used, and "N/A" when that is also absent
(jsOrStr fr.price of "N/A" is exactly that reading). -/
theorem typicalPriceRangePreferred (q : String)
    (hq : (q == "" || q == "N/A") = false) (fr : Listing)
    (rest : List Listing) :
    (∀ pr r rs, fr.price_results = some pr →
        pr.typical_price_range = some (r :: rs) →
        (getPricingFromSerpApi q (some (fr :: rest))).price = some r) ∧
    ((fr.price_results = none ∨
        ∃ pr, fr.price_results = some pr ∧ pr.typical_price_range = none) →
      (getPricingFromSerpApi q (some (fr :: rest))).price =
        some (jsOrStr fr.price "N/A")) := by
  constructor
  · intro pr r rs hpr htpr
    simp [getPricingFromSerpApi, hq, resolvePrice, hpr, htpr]
  · rintro (hnone | ⟨pr, hpr, htpr⟩)
    · simp [getPricingFromSerpApi, hq, resolvePrice, hnone]
    · simp [getPricingFromSerpApi, hq, resolvePrice, hpr, htpr]

/-- C7 witness: a listing carrying both a typical price range and a single
detected price resolves to the range; one with no range resolves to its
single price. -/
theorem typicalPriceRangePreferred_witness :
    (getPricingFromSerpApi "Hermes Hat"
      (some [⟨some ⟨some ["$300 - $350"]⟩, some "$320", some "l"⟩])).price =
      some "$300 - $350" ∧
    (getPricingFromSerpApi "Hermes Hat"
      (some [⟨none, some "$250", none⟩])).price = some "$250" := by
  constructor
  · exact (typicalPriceRangePreferred "Hermes Hat" (by decide)
      ⟨some ⟨some ["$300 - $350"]⟩, some "$320", some "l"⟩ []).1
      ⟨some ["$300 - $350"]⟩ "$300 - $350" [] rfl rfl
  · have h := (typicalPriceRangePreferred "Hermes Hat" (by decide)
      ⟨none, some "$250", none⟩ []).2 (Or.inl rfl)
    rw [h]; decide

/-- C5: the label-based description is the best-guess label when a (truthy)
one exists; with no usable best-guess label it is the first web entity's
description when entities exist and that description is a present, non-empty
string; and the literal "Unknown Item" when there are no entities either. -/
theorem labelDescriptionFallback (wd : Option WebDetection) :
    (∀ s, bglOf wd = some s → s ≠ "" → descriptionOf wd = s) ∧
    (truthyS (bglOf wd) = false →
      ∀ e es, entitiesOf wd = e :: es → ∀ d, e.description = some d →
        d ≠ "" → descriptionOf wd = d) ∧
    (truthyS (bglOf wd) = false → entitiesOf wd = [] →
      descriptionOf wd = "Unknown Item") := by
  refine ⟨?_, ?_, ?_⟩
  · intro s hs hne
    have ht : truthyS (some s) = true := by simp [truthyS, hne]
    simp [descriptionOf, hs, ht, jsOrStr, hne]
  · intro hf e es hents d hd hne
    simp [descriptionOf, hf, hents, hd, jsOrStr, hne]
  · intro hf hents
    simp [descriptionOf, hents, jsOrStr_falsy _ _ hf]

/-- C5 witness: the three fallback stages at concrete responses. -/
theorem labelDescriptionFallback_witness :
    descriptionOf (some ⟨[⟨some "Hermes Hat"⟩], [], []⟩) = "Hermes Hat" ∧
    descriptionOf (some ⟨[], [⟨some "Shoe", none⟩], []⟩) = "Shoe" ∧
    descriptionOf (some ⟨[], [], []⟩) = "Unknown Item" :=
  ⟨(labelDescriptionFallback (some ⟨[⟨some "Hermes Hat"⟩], [], []⟩)).1
      "Hermes Hat" rfl (by decide),
   (labelDescriptionFallback (some ⟨[], [⟨some "Shoe", none⟩], []⟩)).2.1
      (by decide) ⟨some "Shoe", none⟩ [] rfl "Shoe" rfl (by decide),
   (labelDescriptionFallback (some ⟨[], [], []⟩)).2.2 (by decide) rfl⟩

/-- C6: for a non-empty description, brand is the first token of the
single-space split with its first character upper-cased; a multi-token
description's model is the remaining tokens joined by single spaces; a
single-token description's model is the description unchanged; and the
spec's example "Hermes Hat" yields brand "Hermes" and model "Hat". -/
theorem labelBrandModelSplit (d : String) (_h : d ≠ "") :
    brandOf d = capitalize ((splitSp d).headD "") ∧
    (∀ p, splitSp d = [p] → modelOf d = d) ∧
    (∀ p q rest, splitSp d = p :: q :: rest →
      modelOf d = joinSp (q :: rest)) ∧
    brandOf "Hermes Hat" = "Hermes" ∧ modelOf "Hermes Hat" = "Hat" := by
  refine ⟨?_, ?_, ?_, by decide, by decide⟩
  · rcases hs : splitSp d with _ | ⟨p, rest⟩
    · exact absurd hs (splitSp_ne_nil d)
    · simp [brandOf, hs]
  · intro p hp; simp [modelOf, hp]
  · intro p q rest hp; simp [modelOf, hp]

/-- C6 witness: the split at the spec's example description. -/
theorem labelBrandModelSplit_witness :
    brandOf "Hermes Hat" = "Hermes" ∧ modelOf "Hermes Hat" = "Hat" :=
  ⟨(labelBrandModelSplit "Hermes Hat" (by decide)).2.2.2.1,
   (labelBrandModelSplit "Hermes Hat" (by decide)).2.2.2.2⟩

/-- C3: a HEIC/HEIF file whose conversion fails contributes exactly one ok
row carrying the sentinel brand, the converter's message as description and
confidence "0.00", and the loop continues with the remaining files rather
than aborting the batch. -/
theorem heicConversionFailureRecovered (env : Env) (f : FileInput)
    (msg : String) (hheic : isHeicName f.name = true)
    (hfail : env.convertHeic f.name = .error msg) :
    processFile env f = .ok (conversionErrorRow f.name msg) ∧
    (conversionErrorRow f.name msg).brand = "CONVERSION_ERROR" ∧
    (conversionErrorRow f.name msg).description = msg ∧
    (conversionErrorRow f.name msg).confidence = "0.00" ∧
    ∀ fs rest, processAll env fs = .ok rest →
      processAll env (f :: fs) =
        .ok (conversionErrorRow f.name msg :: rest) := by
  have hp : processFile env f = .ok (conversionErrorRow f.name msg) := by
    simp [processFile, hheic, hfail]
  refine ⟨hp, rfl, rfl, rfl, ?_⟩
  intro fs rest hrest
  simp [processAll, hp, hrest]

/-- C3 witness: a failing conversion of x.heic in an environment whose
converter always fails. -/
theorem heicConversionFailureRecovered_witness :
    processFile
      ⟨fun _ => .error "bad file", fun _ => .ok none, fun _ => .ok "New",
       fun _ => none⟩ ⟨"x.heic"⟩ =
      .ok (conversionErrorRow "x.heic" "bad file") ∧
    (conversionErrorRow "x.heic" "bad file").brand = "CONVERSION_ERROR" :=
  ⟨(heicConversionFailureRecovered _ ⟨"x.heic"⟩ "bad file" (by decide)
      rfl).1,
   (heicConversionFailureRecovered
      ⟨fun _ => .error "bad file", fun _ => .ok none, fun _ => .ok "New",
       fun _ => none⟩ ⟨"x.heic"⟩ "bad file" (by decide) rfl).2.1⟩

lemma normalRow_fileName (env : Env) (f : FileInput) (r : Row)
    (h : normalRow env f = .ok r) : r.fileName = f.name := by
  cases hv : env.vision f.name with
  | error e => simp [normalRow, hv] at h
  | ok wd =>
    simp [normalRow, hv] at h
    subst h
    rfl

lemma processFile_fileName (env : Env) (f : FileInput) (r : Row)
    (h : processFile env f = .ok r) : r.fileName = f.name := by
  by_cases hh : isHeicName f.name
  · rw [processFile, if_pos hh] at h
    cases hc : env.convertHeic f.name with
    | error m =>
      rw [hc] at h
      simp at h
      subst h
      rfl
    | ok u => rw [hc] at h; exact normalRow_fileName env f r h
  · rw [processFile, if_neg hh] at h
    exact normalRow_fileName env f r h

lemma processAll_names (env : Env) :
    ∀ (fs : List FileInput) (rows : List Row),
      processAll env fs = .ok rows →
      rows.map Row.fileName = fs.map FileInput.name := by
  intro fs
  induction fs with
  | nil =>
    intro rows h
    simp [processAll] at h
    subst h
    rfl
  | cons f fs ih =>
    intro rows h
    cases hp : processFile env f with
    | error e => simp [processAll, hp] at h
    | ok r =>
      cases ha : processAll env fs with
      | error e => simp [processAll, hp, ha] at h
      | ok rs =>
        simp [processAll, hp, ha] at h
        subst h
        simp [processFile_fileName env f r hp, ih rs ha]

/-- C10: a 2xx response carries exactly one row per uploaded file, rows in
submission order (their fileName fields are the uploaded names in order),
conversion-error rows included. -/
theorem oneRowPerFile (env : Env) (files : List FileInput) (rows : List Row)
    (h : routePOST env files = .ok rows) :
    rows.length = files.length ∧
    rows.map Row.fileName = files.map FileInput.name := by
  cases hf : files.isEmpty
  · rw [routePOST, hf] at h
    simp at h
    have hm := processAll_names env files rows h
    have hl := congrArg List.length hm
    simp at hl
    exact ⟨hl, hm⟩
  · rw [routePOST, hf] at h
    simp at h

/-- C10 witness: two files, the second a failing HEIC, in an environment
with an empty recognition response: two rows, names in order. -/
theorem oneRowPerFile_witness :
    ([(⟨"a.jpg", "Unknown", "Item", "Unknown Item", "New", some "N/A", "#",
        "N/A", "0.00"⟩ : Row),
      conversionErrorRow "b.heic" "bad file"].length = 2 ∧
     [(⟨"a.jpg", "Unknown", "Item", "Unknown Item", "New", some "N/A", "#",
        "N/A", "0.00"⟩ : Row),
      conversionErrorRow "b.heic" "bad file"].map Row.fileName =
       ["a.jpg", "b.heic"]) := by
  have h :=
    oneRowPerFile
      ⟨fun _ => .error "bad file", fun _ => .ok none, fun _ => .ok "New",
       fun _ => none⟩ [⟨"a.jpg"⟩, ⟨"b.heic"⟩]
      [⟨"a.jpg", "Unknown", "Item", "Unknown Item", "New", some "N/A", "#",
        "N/A", "0.00"⟩,
       conversionErrorRow "b.heic" "bad file"] rfl
  exact ⟨h.1, h.2⟩

/-- The case-insensitive identity of a match: its lower-cased title. -/
def lowerTitle (m : CandidateMatch) : String := lowerStr m.title

lemma dedupGo_sublist (ms : List CandidateMatch) :
    ∀ seen, (dedupGo seen ms).Sublist ms := by
  induction ms with
  | nil => intro seen; simp [dedupGo]
  | cons m ms ih =>
    intro seen
    by_cases h : lowerStr m.title ∈ seen
    · simp only [dedupGo, if_pos h]
      exact (ih seen).cons m
    · simp only [dedupGo, if_neg h]
      exact (ih _).cons₂ m

lemma dedupGo_nodup_avoid (ms : List CandidateMatch) :
    ∀ seen, ((dedupGo seen ms).map lowerTitle).Nodup ∧
      ∀ t ∈ seen, t ∉ (dedupGo seen ms).map lowerTitle := by
  induction ms with
  | nil => intro seen; simp [dedupGo]
  | cons m ms ih =>
    intro seen
    by_cases h : lowerStr m.title ∈ seen
    · simpa only [dedupGo, if_pos h] using ih seen
    · simp only [dedupGo, if_neg h, List.map_cons]
      constructor
      · refine List.nodup_cons.mpr ⟨?_, (ih (lowerStr m.title :: seen)).1⟩
        exact (ih (lowerStr m.title :: seen)).2 (lowerTitle m)
          (by simp [lowerTitle])
      · intro t ht
        simp only [List.mem_cons, not_or]
        refine ⟨?_, ?_⟩
        · rintro rfl
          exact h ht
        · exact (ih (lowerStr m.title :: seen)).2 t
            (List.mem_cons_of_mem _ ht)

lemma dedupGo_covers (ms : List CandidateMatch) :
    ∀ seen m, m ∈ ms → lowerTitle m ∈ seen ∨
      lowerTitle m ∈ (dedupGo seen ms).map lowerTitle := by
  induction ms with
  | nil => simp
  | cons m' ms ih =>
    intro seen m hm
    by_cases h : lowerStr m'.title ∈ seen
    · rcases List.mem_cons.mp hm with rfl | hm'
      · exact Or.inl h
      · simpa only [dedupGo, if_pos h] using ih seen m hm'
    · rcases List.mem_cons.mp hm with rfl | hm'
      · right
        simp [dedupGo, if_neg h, lowerTitle]
      · rcases ih (lowerStr m'.title :: seen) m hm' with hs | hr
        · rcases List.mem_cons.mp hs with heq | hseen
          · right
            simp only [dedupGo, if_neg h, List.map_cons, List.mem_cons]
            exact Or.inl heq
          · exact Or.inl hseen
        · right
          simp only [dedupGo, if_neg h, List.map_cons, List.mem_cons]
          exact Or.inr hr

lemma dedupGo_find (ms : List CandidateMatch) :
    ∀ seen t, t ∉ seen →
      (dedupGo seen ms).find? (fun m => lowerTitle m == t) =
        ms.find? (fun m => lowerTitle m == t) := by
  induction ms with
  | nil => intro seen t _; simp [dedupGo]
  | cons m ms ih =>
    intro seen t ht
    by_cases h : lowerStr m.title ∈ seen
    · have hne : (lowerTitle m == t) = false := by
        simp only [beq_eq_false_iff_ne, ne_eq, lowerTitle]
        rintro rfl
        exact ht h
      simp only [dedupGo, if_pos h, List.find?_cons, hne, cond_false]
      exact ih seen t ht
    · cases he : (lowerTitle m == t) with
      | true =>
        simp [dedupGo, if_neg h, List.find?_cons, he]
      | false =>
        have ht' : t ∉ lowerStr m.title :: seen := by
          simp only [List.mem_cons, not_or]
          refine ⟨?_, ht⟩
          have := beq_eq_false_iff_ne.mp he
          simpa [lowerTitle, eq_comm] using this
        simp only [dedupGo, if_neg h, List.find?_cons, he, cond_false]
        exact ih _ t ht'

/-- C1 (spec-modelled: the visual-match variant normalizer is not among the
sources). Deduplication of one image's matches keeps a subsequence of the
adapter's result order, emits no two rows with case-insensitively equal
titles, covers exactly the distinct case-insensitive titles of the input,
and for each title keeps precisely the first-seen match with all its
attributes (the find? equations). -/
theorem visualMatchDedup (ms : List CandidateMatch) :
    (dedupMatches ms).Sublist ms ∧
    ((dedupMatches ms).map lowerTitle).Nodup ∧
    (∀ t, t ∈ ms.map lowerTitle ↔ t ∈ (dedupMatches ms).map lowerTitle) ∧
    (∀ t, (dedupMatches ms).find? (fun m => lowerTitle m == t) =
      ms.find? (fun m => lowerTitle m == t)) := by
  refine ⟨dedupGo_sublist ms [], (dedupGo_nodup_avoid ms []).1, ?_,
    fun t => dedupGo_find ms [] t (by simp)⟩
  intro t
  constructor
  · intro htm
    rcases List.mem_map.mp htm with ⟨m, hm, rfl⟩
    rcases dedupGo_covers ms [] m hm with hs | hr
    · simp at hs
    · exact hr
  · intro ht
    rcases List.mem_map.mp ht with ⟨m, hm, rfl⟩
    exact List.mem_map_of_mem lowerTitle ((dedupGo_sublist ms []).subset hm)

lemma runLoop_fail {α β : Type} (respond : List α → Except String (List β))
    (b : List α) (post : List (List α)) (msg : String) :
    ∀ (pre : List (List α)) (acc : List β) (done : Nat),
      (∀ p ∈ pre, ∃ rs, respond p = .ok rs) → respond b = .error msg →
      runLoop respond (pre ++ b :: post) acc done =
        ⟨acc ++ pre.flatMap (okResults respond), prefixSums done pre,
         some msg, pre.length + 1⟩ := by
  intro pre
  induction pre with
  | nil =>
    intro acc done _ hb
    simp [runLoop, hb, prefixSums]
  | cons p pre ih =>
    intro acc done hpre hb
    obtain ⟨rs, hrs⟩ := hpre p (List.mem_cons_self p pre)
    have hrest : ∀ q ∈ pre, ∃ rs, respond q = .ok rs :=
      fun q hq => hpre q (List.mem_cons_of_mem p hq)
    simp only [List.cons_append, runLoop, hrs, List.append_eq]
    rw [ih (acc ++ rs) (done + p.length) hrest hb]
    simp [prefixSums, okResults, hrs, List.append_assoc]

/-- C2: when the partition of the files has a first failing batch (all
earlier batches respond ok, batch b fails with msg), the run ends with that
error message set, exactly the earlier batches plus the failing one were
dispatched, the caller-visible results are exactly the rows of the earlier
batches in order, and the progress states are those of the earlier batches
only. -/
theorem batchFailureHalts {α β : Type}
    (respond : List α → Except String (List β)) (files : List α)
    (pre : List (List α)) (b : List α) (post : List (List α)) (msg : String)
    (hsplit : chunks files = pre ++ b :: post)
    (hpre : ∀ p ∈ pre, ∃ rs, respond p = .ok rs)
    (hb : respond b = .error msg) :
    handleSubmit respond files =
      ⟨pre.flatMap (okResults respond), prefixSums 0 pre, some msg,
       pre.length + 1⟩ := by
  have hne : files.isEmpty = false := by
    cases files with
    | nil => simp [chunks, chunksGo] at hsplit
    | cons x xs => rfl
  rw [handleSubmit, hne]
  simp only [Bool.false_eq_true, if_false]
  rw [hsplit]
  simpa using runLoop_fail respond b post msg pre [] 0 hpre hb

/-- C2 witness: 21 files in batches of 20; the second batch fails, the
first batch's rows stay visible, two batches dispatched, error set. -/
theorem batchFailureHalts_witness :
    handleSubmit
      (fun l : List Nat => if 20 ∈ l then .error "boom" else .ok l)
      (List.range 21) =
      ⟨List.range 20, [20], some "boom", 2⟩ := by
  have h := batchFailureHalts
    (fun l : List Nat => if 20 ∈ l then .error "boom" else .ok l)
    (List.range 21) [List.range 20] [20] [] "boom" (by decide)
    (by
      intro p hp
      rw [List.mem_singleton] at hp
      subst hp
      exact ⟨List.range 20, by rfl⟩)
    (by rfl)
  rw [h]
  decide

lemma runLoop_trace_pref {α β : Type}
    (respond : List α → Except String (List β)) :
    ∀ (bs : List (List α)) (acc : List β) (done : Nat),
      ∃ m, m ≤ bs.length ∧
        (runLoop respond bs acc done).trace = prefixSums done (bs.take m) := by
  intro bs
  induction bs with
  | nil =>
    intro acc done
    exact ⟨0, Nat.le_refl 0, by simp [runLoop, prefixSums]⟩
  | cons b bs ih =>
    intro acc done
    cases hr : respond b with
    | error m =>
      exact ⟨0, Nat.zero_le _, by simp [runLoop, hr, prefixSums]⟩
    | ok rs =>
      obtain ⟨m, hm, htr⟩ := ih (acc ++ rs) (done + b.length)
      refine ⟨m + 1, by simpa using Nat.succ_le_succ hm, ?_⟩
      simp [runLoop, hr, prefixSums, htr]

lemma prefixSums_chain {α : Type} (bs : List (List α)) :
    ∀ done : Nat, List.Chain' (· ≤ ·) (done :: prefixSums done bs) := by
  induction bs with
  | nil => intro done; simp [prefixSums]
  | cons b bs ih =>
    intro done
    rw [prefixSums]
    exact List.Chain'.cons (Nat.le_add_right done b.length)
      (ih (done + b.length))

lemma percentOf_mono (total : Nat) {a b : Nat} (h : a ≤ b) :
    percentOf total a ≤ percentOf total b := by
  unfold percentOf
  rcases Nat.eq_zero_or_pos total with h0 | hpos
  · subst h0; simp
  · have ht : (0 : ℚ) < (total : ℚ) := by exact_mod_cast hpos
    have hab : (a : ℚ) ≤ (b : ℚ) := by exact_mod_cast h
    have hd : (a : ℚ) / (total : ℚ) ≤ (b : ℚ) / (total : ℚ) :=
      (div_le_div_iff_of_pos_right ht).mpr hab
    exact mul_le_mul_of_nonneg_right hd (by norm_num)

/-- C9: within one run the progress state is monotone: the successive
processed counts (starting from the initial 0) never decrease, the derived
percent-complete values never decrease, and the counts are exactly the
running sums of the lengths of the completed leading batches (prefixSums
adds each completed batch's length to the previous count). -/
theorem progressMonotone {α β : Type}
    (respond : List α → Except String (List β)) (files : List α) :
    List.Chain' (· ≤ ·) (0 :: (handleSubmit respond files).trace) ∧
    List.Chain' (· ≤ ·)
      ((0 :: (handleSubmit respond files).trace).map
        (percentOf files.length)) ∧
    ∃ m, m ≤ (chunks files).length ∧
      (handleSubmit respond files).trace =
        prefixSums 0 ((chunks files).take m) := by
  have hchar : ∃ m, m ≤ (chunks files).length ∧
      (handleSubmit respond files).trace =
        prefixSums 0 ((chunks files).take m) := by
    cases he : files.isEmpty
    · rw [handleSubmit, he]
      simp only [Bool.false_eq_true, if_false]
      exact runLoop_trace_pref respond (chunks files) [] 0
    · refine ⟨0, Nat.zero_le _, ?_⟩
      rw [handleSubmit, he]
      simp [prefixSums]
  obtain ⟨m, hm, htr⟩ := hchar
  have hchain : List.Chain' (· ≤ ·) (0 :: (handleSubmit respond files).trace) := by
    rw [htr]
    exact prefixSums_chain _ 0
  refine ⟨hchain, ?_, ⟨m, hm, htr⟩⟩
  rw [List.chain'_map]
  exact hchain.imp fun a b hab => percentOf_mono files.length hab

lemma csvRunM_unq_quote (rest cur : List Char) (row : List String) :
    csvRunM ('"' :: rest) .unq cur row = csvRunM rest .inq cur row := by
  simp [csvRunM]

lemma csvRunM_unq_comma (rest cur : List Char) (row : List String) :
    csvRunM (',' :: rest) .unq cur row =
      csvRunM rest .unq [] (row ++ [String.mk cur]) := by
  simp [csvRunM]

lemma csvRunM_unq_nl (rest cur : List Char) (row : List String) :
    csvRunM ('\n' :: rest) .unq cur row =
      (row ++ [String.mk cur]) :: csvRunM rest .unq [] [] := by
  simp [csvRunM]

lemma csvRunM_unq_other (c : Char) (rest cur : List Char) (row : List String)
    (h1 : c ≠ '"') (h2 : c ≠ ',') (h3 : c ≠ '\n') :
    csvRunM (c :: rest) .unq cur row = csvRunM rest .unq (cur ++ [c]) row := by
  simp [csvRunM, h1, h2, h3]

lemma csvRunM_inq_quote (rest cur : List Char) (row : List String) :
    csvRunM ('"' :: rest) .inq cur row = csvRunM rest .postq cur row := by
  simp [csvRunM]

lemma csvRunM_inq_other (c : Char) (rest cur : List Char) (row : List String)
    (h : c ≠ '"') :
    csvRunM (c :: rest) .inq cur row = csvRunM rest .inq (cur ++ [c]) row := by
  simp [csvRunM, h]

lemma csvRunM_postq_quote (rest cur : List Char) (row : List String) :
    csvRunM ('"' :: rest) .postq cur row =
      csvRunM rest .inq (cur ++ ['"']) row := by
  simp [csvRunM]

lemma csvRunM_postq_comma (rest cur : List Char) (row : List String) :
    csvRunM (',' :: rest) .postq cur row =
      csvRunM rest .unq [] (row ++ [String.mk cur]) := by
  simp [csvRunM]

lemma csvRunM_postq_nl (rest cur : List Char) (row : List String) :
    csvRunM ('\n' :: rest) .postq cur row =
      (row ++ [String.mk cur]) :: csvRunM rest .unq [] [] := by
  simp [csvRunM]

lemma csvRunM_unq_chunk (f : List Char)
    (hf : ∀ c ∈ f, ¬(c = '"' ∨ c = ',' ∨ c = '\n')) :
    ∀ (rest cur : List Char) (row : List String),
      csvRunM (f ++ rest) .unq cur row = csvRunM rest .unq (cur ++ f) row := by
  induction f with
  | nil => intro rest cur row; simp
  | cons c f ih =>
    intro rest cur row
    have hc := hf c (List.mem_cons_self c f)
    push_neg at hc
    obtain ⟨h1, h2, h3⟩ := hc
    rw [List.cons_append, csvRunM_unq_other c _ _ _ h1 h2 h3,
      ih (fun c hc => hf c (List.mem_cons_of_mem _ hc)) rest (cur ++ [c]) row]
    simp

lemma csvRunM_inq_chunk (f : List Char) :
    ∀ (rest cur : List Char) (row : List String),
      csvRunM (f.flatMap escChar ++ '"' :: rest) .inq cur row =
        csvRunM rest .postq (cur ++ f) row := by
  induction f with
  | nil =>
    intro rest cur row
    simp [csvRunM_inq_quote]
  | cons c f ih =>
    intro rest cur row
    by_cases h : c = '"'
    · subst h
      have he : escChar '"' = ['"', '"'] := by simp [escChar]
      rw [List.flatMap_cons, he]
      simp only [List.cons_append, List.singleton_append, List.nil_append,
        List.append_assoc]
      rw [csvRunM_inq_quote, csvRunM_postq_quote, ih rest (cur ++ ['"']) row]
      simp
    · have he : escChar c = [c] := by simp [escChar, h]
      rw [List.flatMap_cons, he, List.singleton_append, List.cons_append]
      rw [csvRunM_inq_other c _ _ _ h, ih rest (cur ++ [c]) row]
      simp

lemma mk_data (s : String) : String.mk s.data = s := rfl

lemma needsQuote_false_chars (s : String) (h : needsQuote s = false) :
    ∀ c ∈ s.data, ¬(c = '"' ∨ c = ',' ∨ c = '\n') := by
  intro c hc hbad
  simp only [needsQuote, List.any_eq_false] at h
  have hc' := h c hc
  rcases hbad with rfl | rfl | rfl <;> simp at hc'

lemma csvRunM_field_comma (f : String) (rest cur : List Char)
    (row : List String) :
    csvRunM ((escField f).data ++ ',' :: rest) .unq cur row =
      csvRunM rest .unq [] (row ++ [String.mk (cur ++ f.data)]) := by
  by_cases hq : needsQuote f
  · have hdata : (escField f).data =
        ('"' :: f.data.flatMap escChar) ++ ['"'] := by
      simp [escField, hq]
    rw [hdata]
    simp only [List.cons_append, List.append_assoc, List.singleton_append,
      List.nil_append]
    rw [csvRunM_unq_quote, csvRunM_inq_chunk f.data (',' :: rest) cur row,
      csvRunM_postq_comma]
  · have hq' : needsQuote f = false := by simpa using hq
    have hdata : (escField f).data = f.data := by simp [escField, hq']
    rw [hdata,
      csvRunM_unq_chunk f.data (needsQuote_false_chars f hq') (',' :: rest)
        cur row,
      csvRunM_unq_comma]

lemma csvRunM_field_nl (f : String) (rest cur : List Char)
    (row : List String) :
    csvRunM ((escField f).data ++ '\n' :: rest) .unq cur row =
      (row ++ [String.mk (cur ++ f.data)]) :: csvRunM rest .unq [] [] := by
  by_cases hq : needsQuote f
  · have hdata : (escField f).data =
        ('"' :: f.data.flatMap escChar) ++ ['"'] := by
      simp [escField, hq]
    rw [hdata]
    simp only [List.cons_append, List.append_assoc, List.singleton_append,
      List.nil_append]
    rw [csvRunM_unq_quote, csvRunM_inq_chunk f.data ('\n' :: rest) cur row,
      csvRunM_postq_nl]
  · have hq' : needsQuote f = false := by simpa using hq
    have hdata : (escField f).data = f.data := by simp [escField, hq']
    rw [hdata,
      csvRunM_unq_chunk f.data (needsQuote_false_chars f hq') ('\n' :: rest)
        cur row,
      csvRunM_unq_nl]

lemma csvRunM_row (fs : List String) (h : fs ≠ []) :
    ∀ (rest : List Char) (row : List String),
      csvRunM (renderRowChars fs ++ '\n' :: rest) .unq [] row =
        (row ++ fs) :: csvRunM rest .unq [] [] := by
  induction fs with
  | nil => exact absurd rfl h
  | cons f fs ih =>
    intro rest row
    cases fs with
    | nil =>
      rw [renderRowChars, csvRunM_field_nl f rest [] row]
      simp [mk_data]
    | cons f' fs' =>
      rw [renderRowChars]
      simp only [List.cons_append, List.append_assoc]
      rw [csvRunM_field_comma f _ [] row]
      rw [ih (by simp) rest (row ++ [String.mk ([] ++ f.data)])]
      simp [mk_data]

lemma csvParse_csvStringify (rows : List (List String))
    (h : ∀ r ∈ rows, r ≠ []) : csvParse (csvStringify rows) = rows := by
  show csvRunM (csvChars rows) .unq [] [] = rows
  induction rows with
  | nil => simp [csvChars, csvRunM]
  | cons r rows ih =>
    rw [csvChars, List.flatMap_cons]
    simp only [List.append_assoc, List.singleton_append]
    rw [csvRunM_row r (h r (List.mem_cons_self r rows)) _ []]
    rw [List.nil_append]
    have ht := ih (fun q hq => h q (List.mem_cons_of_mem _ hq))
    rw [csvChars] at ht
    rw [ht]

/-- C8: the export of a non-empty result list is delimited text whose parse
is exactly the fixed nine-column header row followed by one record per
result carrying the nine field values in order (so N results round-trip to
N data rows); the empty list is rejected before any output is produced. -/
theorem csvExportRoundTrip (rs : List AnalysisResult) :
    handleExportCsv [] = none ∧
    (rs ≠ [] → ∃ out, handleExportCsv rs = some out ∧
      csvParse out =
        (["File Name", "Brand", "Model", "Description", "Condition",
          "Current Retail Price", "Web Link", "Corresponding Item Pictures",
          "Confidence (Similarity)"] : List String) :: rs.map resultRow ∧
      (rs.map resultRow).length = rs.length) := by
  refine ⟨rfl, fun hne =>
    ⟨csvStringify (headerRow :: rs.map resultRow), ?_, ?_, by simp⟩⟩
  · have : rs.isEmpty = false := by
      cases rs with
      | nil => exact absurd rfl hne
      | cons a l => rfl
    simp [handleExportCsv, this]
  · rw [csvParse_csvStringify]
    · rfl
    · intro r hr
      rcases List.mem_cons.mp hr with rfl | hr'
      · simp [headerRow]
      · rcases List.mem_map.mp hr' with ⟨a, ha, rfl⟩
        simp [resultRow]

/-- C8 witness: one result whose fields exercise quoting (quote, comma,
newline) round-trips behind the nine headers. -/
theorem csvExportRoundTrip_witness :
    ∃ out, handleExportCsv
        [⟨"a.jpg", "B\"x", "m,1", "d\nd", "New", "$5", "#", "N/A",
          "0.95"⟩] = some out ∧
      csvParse out =
        (["File Name", "Brand", "Model", "Description", "Condition",
          "Current Retail Price", "Web Link", "Corresponding Item Pictures",
          "Confidence (Similarity)"] : List String) ::
          ([⟨"a.jpg", "B\"x", "m,1", "d\nd", "New", "$5", "#", "N/A",
            "0.95"⟩] : List AnalysisResult).map resultRow ∧
      (([⟨"a.jpg", "B\"x", "m,1", "d\nd", "New", "$5", "#", "N/A",
          "0.95"⟩] : List AnalysisResult).map resultRow).length =
        ([⟨"a.jpg", "B\"x", "m,1", "d\nd", "New", "$5", "#", "N/A",
          "0.95"⟩] : List AnalysisResult).length :=
  (csvExportRoundTrip
    [⟨"a.jpg", "B\"x", "m,1", "d\nd", "New", "$5", "#", "N/A",
      "0.95"⟩]).2 (by simp)
